import Mathlib

/-!
Verification of `src/main.ts` of sync_dns_to_wecom_docs.

The TypeScript source is shallowly embedded below:
* DNS records (`RESOURCE`) and the normalizer `process_dns_records`
  (filter by `is_enable`, filter by type, strip last character of the
  name, merge same-named records by comma-joining their rdata) become
  pure Lean functions on lists; JavaScript strings are modelled as Lean
  `String` (lists of characters), `substring(0, e)` as `take` on the
  character list.
* The sheet reconciler `process_wedocs` becomes a pure function from the
  delete-toggle environment value, the existing sheet rows and the
  normalized records to the computed insert/update/delete sets and the
  run statistics.  The `added`/`updated` statistics come from the remote
  API's responses in the source, so the embedding takes those response
  counts as parameters; JavaScript plain-object key membership (`in`,
  `Object.keys`, `Object.fromEntries` with last-entry-wins and
  first-insertion key order) is modelled over entry lists.
* The module-level environment check becomes a function from an
  environment record to an exit outcome plus the list of network calls a
  run would issue.
* For the frame claim about mutation, `process_dns_records` is embedded
  a second time over an explicit heap (addresses to objects), mirroring
  which objects the source allocates and mutates.
-/

set_option autoImplicit false

namespace SyncDnsWecom

/-- One DNS resource record as returned by the zdns provider
(`RESOURCE` in `zdns/lib/types`); only the four fields the program
reads are modelled. -/
structure RESOURCE where
  name : String
  type : String
  rdata : String
  is_enable : String
  deriving DecidableEq, Repr

/-- The `{ name, rdata }` objects produced by `process_dns_records`. -/
structure NormalizedRecord where
  name : String
  rdata : String
  deriving DecidableEq, Repr

/-- JavaScript `s.substring(0, e)` for `0 ≤ e ≤ s.length` (the only way
the source calls it); `e` is a `Nat`, matching the clamping of negative
end indices to `0`. -/
def substring_to (s : String) (e : Nat) : String :=
  (s.toList.take e).asString

/-- Line 91: `{ name: record.name.substring(0, record.name.length - 1), rdata: record.rdata }`. -/
def simple_record (record : RESOURCE) : NormalizedRecord :=
  { name := substring_to record.name (record.name.length - 1), rdata := record.rdata }

/-- Line 85: `dns_records.filter((record) => record.is_enable === 'yes')`. -/
def enabled_records (dns_records : List RESOURCE) : List RESOURCE :=
  dns_records.filter (fun record => record.is_enable == "yes")

/-- Line 88: `enabled_records.filter((record) => ['CNAME', 'A', 'AAAA'].includes(record.type))`. -/
def specified_type_records (l : List RESOURCE) : List RESOURCE :=
  l.filter (fun record => (["CNAME", "A", "AAAA"] : List String).contains record.type)

/-- Line 95: `records_data.find((r) => r.name === record.name)`. -/
def lookup_name (records_data : List NormalizedRecord) (n : String) : Option NormalizedRecord :=
  records_data.find? (fun r => r.name == n)

/-- Line 98: `existing_record.rdata = existing_record.rdata + ',' + record.rdata`,
applied to the first entry whose name matches (the entry JavaScript's
`find` returns); entries other than that first match are untouched. -/
def append_rdata (records_data : List NormalizedRecord) (record : NormalizedRecord) :
    List NormalizedRecord :=
  match records_data with
  | [] => []
  | r :: rest =>
    if r.name == record.name then
      { r with rdata := r.rdata ++ "," ++ record.rdata } :: rest
    else
      r :: append_rdata rest record

/-- One iteration of the merge loop (lines 94-102): mutate the found
entry's rdata, or push the record at the end. -/
def merge_step (records_data : List NormalizedRecord) (record : NormalizedRecord) :
    List NormalizedRecord :=
  match lookup_name records_data record.name with
  | some _ => append_rdata records_data record
  | none => records_data ++ [record]

/-- The merge loop of lines 93-102, starting from the empty `records_data`. -/
def merge_records (simple_record_data : List NormalizedRecord) : List NormalizedRecord :=
  simple_record_data.foldl merge_step []

/-- Lines 81-105: the whole normalizer. -/
def process_dns_records (dns_records : List RESOURCE) : List NormalizedRecord :=
  merge_records ((specified_type_records (enabled_records dns_records)).map simple_record)

/-- Spec-side: one step of collecting names in order of first appearance. -/
def seen_step (seen : List String) (n : String) : List String :=
  if n ∈ seen then seen else seen ++ [n]

/-- Spec-side: the distinct members of `l` in order of first appearance.
Also the key order of a JavaScript plain object built from entries with
these keys (first insertion wins the position). -/
def first_occurrences (l : List String) : List String :=
  l.foldl seen_step []

/-- Spec-side: the comma-separated concatenation of a list of strings in
order, no separator for a singleton, empty for the empty list. -/
def comma_join : List String → String
  | [] => ""
  | x :: xs => xs.foldl (fun acc y => acc ++ "," ++ y) x


theorem append_rdata_map_name (records_data : List NormalizedRecord) (record : NormalizedRecord) :
    (append_rdata records_data record).map (fun r => r.name) =
      records_data.map (fun r => r.name) := by
  induction records_data with
  | nil => rfl
  | cons r rest ih =>
    by_cases h : (r.name == record.name) = true
    · simp [append_rdata, h]
    · simp [append_rdata, h, ih]

theorem merge_step_of_found (acc : List NormalizedRecord) (record : NormalizedRecord)
    (e : NormalizedRecord) (h : lookup_name acc record.name = some e) :
    merge_step acc record = append_rdata acc record := by
  unfold merge_step
  rw [h]

theorem merge_step_of_not_found (acc : List NormalizedRecord) (record : NormalizedRecord)
    (h : lookup_name acc record.name = none) :
    merge_step acc record = acc ++ [record] := by
  unfold merge_step
  rw [h]

theorem merge_step_map_name (acc : List NormalizedRecord) (record : NormalizedRecord) :
    (merge_step acc record).map (fun r => r.name) =
      seen_step (acc.map (fun r => r.name)) record.name := by
  unfold seen_step
  cases hl : lookup_name acc record.name with
  | some e =>
    have hl' : acc.find? (fun r => r.name == record.name) = some e := hl
    have hmem : record.name ∈ acc.map (fun r => r.name) := by
      have he := List.find?_some hl'
      exact List.mem_map.mpr ⟨e, List.mem_of_find?_eq_some hl', beq_iff_eq.mp he⟩
    rw [merge_step_of_found acc record e hl, if_pos hmem, append_rdata_map_name]
  | none =>
    have hl' : acc.find? (fun r => r.name == record.name) = none := hl
    have hnm : record.name ∉ acc.map (fun r => r.name) := by
      intro hmem
      obtain ⟨x, hx, hxe⟩ := List.mem_map.mp hmem
      have hfalse := List.find?_eq_none.mp hl' x hx
      exact hfalse (by simp [hxe])
    rw [merge_step_of_not_found acc record hl, if_neg hnm]
    simp

theorem merge_fold_map_name (rs : List NormalizedRecord) (acc : List NormalizedRecord) :
    ((rs.foldl merge_step acc).map (fun r => r.name)) =
      (rs.map (fun r => r.name)).foldl seen_step (acc.map (fun r => r.name)) := by
  induction rs generalizing acc with
  | nil => rfl
  | cons r rest ih =>
    simp only [List.foldl_cons, List.map_cons]
    rw [ih, merge_step_map_name]

theorem seen_fold_nodup (l : List String) (acc : List String) (h : acc.Nodup) :
    (l.foldl seen_step acc).Nodup := by
  induction l generalizing acc with
  | nil => exact h
  | cons n rest ih =>
    simp only [List.foldl_cons]
    apply ih
    unfold seen_step
    by_cases hn : n ∈ acc
    · rwa [if_pos hn]
    · rw [if_neg hn]
      simp [List.nodup_append, h, hn]

theorem seen_fold_mem (l : List String) (acc : List String) (n : String) :
    n ∈ l.foldl seen_step acc ↔ n ∈ acc ∨ n ∈ l := by
  induction l generalizing acc with
  | nil => simp
  | cons m rest ih =>
    simp only [List.foldl_cons, ih, List.mem_cons]
    unfold seen_step
    by_cases hm : m ∈ acc
    · rw [if_pos hm]
      constructor
      · tauto
      · rintro (h | rfl | h)
        · tauto
        · exact Or.inl hm
        · tauto
    · rw [if_neg hm]
      simp only [List.mem_append, List.mem_singleton]
      tauto



theorem lookup_name_cons_pos (r : NormalizedRecord) (rest : List NormalizedRecord) (n : String)
    (h : (r.name == n) = true) : lookup_name (r :: rest) n = some r := by
  simp [lookup_name, List.find?_cons, h]

theorem lookup_name_cons_neg (r : NormalizedRecord) (rest : List NormalizedRecord) (n : String)
    (h : ¬ (r.name == n) = true) : lookup_name (r :: rest) n = lookup_name rest n := by
  rw [Bool.not_eq_true] at h
  simp [lookup_name, List.find?_cons, h]

theorem filter_name_cons_pos (r : NormalizedRecord) (rest : List NormalizedRecord) (n : String)
    (h : (r.name == n) = true) :
    (r :: rest).filter (fun x => x.name == n) = r :: rest.filter (fun x => x.name == n) := by
  simp [List.filter_cons, h]

theorem filter_name_cons_neg (r : NormalizedRecord) (rest : List NormalizedRecord) (n : String)
    (h : ¬ (r.name == n) = true) :
    (r :: rest).filter (fun x => x.name == n) = rest.filter (fun x => x.name == n) := by
  rw [Bool.not_eq_true] at h
  simp [List.filter_cons, h]

theorem lookup_name_append_rdata_self (acc : List NormalizedRecord) (record : NormalizedRecord) :
    lookup_name (append_rdata acc record) record.name =
      (lookup_name acc record.name).map
        (fun e => { name := e.name, rdata := e.rdata ++ "," ++ record.rdata }) := by
  induction acc with
  | nil => rfl
  | cons r rest ih =>
    by_cases h : (r.name == record.name) = true
    · rw [show append_rdata (r :: rest) record =
            { r with rdata := r.rdata ++ "," ++ record.rdata } :: rest by
          simp [append_rdata, h]]
      rw [lookup_name_cons_pos { r with rdata := r.rdata ++ "," ++ record.rdata } rest
            record.name h,
          lookup_name_cons_pos r rest record.name h]
      rfl
    · rw [show append_rdata (r :: rest) record = r :: append_rdata rest record by
          simp [append_rdata, h]]
      rw [lookup_name_cons_neg _ _ _ h, lookup_name_cons_neg _ _ _ h, ih]

theorem lookup_name_append_rdata_ne (acc : List NormalizedRecord) (record : NormalizedRecord)
    (n : String) (hne : n ≠ record.name) :
    lookup_name (append_rdata acc record) n = lookup_name acc n := by
  induction acc with
  | nil => rfl
  | cons r rest ih =>
    by_cases h : (r.name == record.name) = true
    · have hr : r.name = record.name := beq_iff_eq.mp h
      have hpn : ¬ (r.name == n) = true := by
        simp only [beq_iff_eq, hr]
        exact fun e => hne e.symm
      rw [show append_rdata (r :: rest) record =
            { r with rdata := r.rdata ++ "," ++ record.rdata } :: rest by
          simp [append_rdata, h]]
      rw [lookup_name_cons_neg { r with rdata := r.rdata ++ "," ++ record.rdata } rest n hpn,
          lookup_name_cons_neg r rest n hpn]
    · rw [show append_rdata (r :: rest) record = r :: append_rdata rest record by
          simp [append_rdata, h]]
      by_cases hp : (r.name == n) = true
      · rw [lookup_name_cons_pos _ _ _ hp, lookup_name_cons_pos _ _ _ hp]
      · rw [lookup_name_cons_neg _ _ _ hp, lookup_name_cons_neg _ _ _ hp, ih]

theorem lookup_name_append (l1 l2 : List NormalizedRecord) (n : String) :
    lookup_name (l1 ++ l2) n = (lookup_name l1 n).or (lookup_name l2 n) := by
  simp only [lookup_name]
  exact List.find?_append

theorem merge_fold_lookup (rs : List NormalizedRecord) (acc : List NormalizedRecord) (n : String) :
    lookup_name (rs.foldl merge_step acc) n =
      match lookup_name acc n with
      | some e =>
        some { name := e.name,
               rdata := ((rs.filter (fun r => r.name == n)).map (fun r => r.rdata)).foldl
                          (fun a y => a ++ "," ++ y) e.rdata }
      | none =>
        match (rs.filter (fun r => r.name == n)).map (fun r => r.rdata) with
        | [] => none
        | x :: xs => some { name := n, rdata := xs.foldl (fun a y => a ++ "," ++ y) x } := by
  induction rs generalizing acc with
  | nil =>
    cases hacc : lookup_name acc n with
    | some e => simp [List.foldl_nil, hacc]
    | none => simp [List.foldl_nil, hacc]
  | cons r rest ih =>
    simp only [List.foldl_cons]
    rw [ih (merge_step acc r)]
    by_cases hrn : (r.name == n) = true
    · have hrn' : r.name = n := beq_iff_eq.mp hrn
      rw [filter_name_cons_pos _ _ _ hrn]
      cases hacc : lookup_name acc n with
      | some e =>
        have hstep : merge_step acc r = append_rdata acc r :=
          merge_step_of_found acc r e (by rw [hrn']; exact hacc)
        have hlook : lookup_name (merge_step acc r) n =
            some ⟨e.name, e.rdata ++ "," ++ r.rdata⟩ := by
          rw [hstep]
          have hself := lookup_name_append_rdata_self acc r
          rw [hrn'] at hself
          rw [hself, hacc]
          rfl
        rw [hlook]
        simp
      | none =>
        have hstep : merge_step acc r = acc ++ [r] :=
          merge_step_of_not_found acc r (by rw [hrn']; exact hacc)
        have hlook : lookup_name (merge_step acc r) n = some r := by
          rw [hstep, lookup_name_append, hacc, Option.none_or]
          exact lookup_name_cons_pos r [] n hrn
        rw [hlook]
        simp [hrn']
    · rw [filter_name_cons_neg _ _ _ hrn]
      have hne : n ≠ r.name := fun e => hrn (beq_iff_eq.mpr e.symm)
      have hlook : lookup_name (merge_step acc r) n = lookup_name acc n := by
        cases hfr : lookup_name acc r.name with
        | some e =>
          rw [merge_step_of_found acc r e hfr]
          exact lookup_name_append_rdata_ne acc r n hne
        | none =>
          rw [merge_step_of_not_found acc r hfr, lookup_name_append]
          rw [lookup_name_cons_neg _ _ _ hrn]
          rw [show lookup_name ([] : List NormalizedRecord) n = none from rfl, Option.or_none]
      rw [hlook]



/-- C1: for every input list of `RESOURCE`, `process_dns_records` never
emits two `NormalizedRecord` with equal `name`, and the names appear in
the order of first appearance of each distinct name in the filtered,
dot-stripped input. -/
theorem process_dns_records_names_unique_first_seen (dns_records : List RESOURCE) :
    ((process_dns_records dns_records).map (fun r => r.name)).Nodup ∧
    (process_dns_records dns_records).map (fun r => r.name) =
      first_occurrences
        (((specified_type_records (enabled_records dns_records)).map simple_record).map
          (fun r => r.name)) := by
  constructor
  · rw [process_dns_records, merge_records, merge_fold_map_name]
    exact seen_fold_nodup _ _ List.nodup_nil
  · rw [process_dns_records, merge_records, merge_fold_map_name]
    rfl

/-- C2: whenever a name survives the filters, the rdata of its merged
output entry is the comma-separated concatenation of the rdata values of
all filtered records carrying that name, in input order, duplicates
kept. -/
theorem process_dns_records_merged_rdata (dns_records : List RESOURCE) (n : String)
    (h : n ∈ (((specified_type_records (enabled_records dns_records)).map simple_record).map
          (fun r => r.name))) :
    lookup_name (process_dns_records dns_records) n =
      some { name := n,
             rdata := comma_join
               ((((specified_type_records (enabled_records dns_records)).map
                   simple_record).filter (fun r => r.name == n)).map (fun r => r.rdata)) } := by
  rw [process_dns_records, merge_records, merge_fold_lookup]
  obtain ⟨r, hr, hrn⟩ := List.mem_map.mp h
  have hmemf : r ∈ ((specified_type_records (enabled_records dns_records)).map
      simple_record).filter (fun x => x.name == n) :=
    List.mem_filter.mpr ⟨hr, by simp [hrn]⟩
  cases hfil : (((specified_type_records (enabled_records dns_records)).map
      simple_record).filter (fun x => x.name == n)).map (fun x => x.rdata) with
  | nil =>
    have hin := List.mem_map_of_mem (fun x => x.rdata) hmemf
    rw [hfil] at hin
    exact absurd hin (List.not_mem_nil _)
  | cons x xs =>
    rw [show lookup_name ([] : List NormalizedRecord) n = none from rfl]
    simp only [hfil, comma_join]

/-- Witness for C2 at the spec's concrete input: two enabled A records
named `x.com.` with rdata `1.2.3.4` then `5.6.7.8` merge to
`1.2.3.4,5.6.7.8`. -/
theorem process_dns_records_merged_rdata_witness :
    ("x.com" ∈ (((specified_type_records (enabled_records
        [⟨"x.com.", "A", "1.2.3.4", "yes"⟩, ⟨"x.com.", "A", "5.6.7.8", "yes"⟩])).map
          simple_record).map (fun r => r.name))) ∧
    lookup_name (process_dns_records
        [⟨"x.com.", "A", "1.2.3.4", "yes"⟩, ⟨"x.com.", "A", "5.6.7.8", "yes"⟩]) "x.com" =
      some { name := "x.com", rdata := "1.2.3.4,5.6.7.8" } :=
  ⟨by decide,
   (process_dns_records_merged_rdata
      [⟨"x.com.", "A", "1.2.3.4", "yes"⟩, ⟨"x.com.", "A", "5.6.7.8", "yes"⟩] "x.com"
      (by decide)).trans (by decide)⟩



theorem substring_drop_last (s : String) :
    substring_to s (s.length - 1) = s.toList.dropLast.asString := by
  rw [substring_to, List.dropLast_eq_take]
  rfl

/-- C4 counterexample: the raw name `abc` has no trailing dot, yet the
normalizer does not return it unchanged: it drops the final `c`. -/
theorem strip_no_trailing_dot_still_changes_name :
    "abc".toList.getLast? ≠ some '.' ∧
    (process_dns_records [⟨"abc", "A", "1.2.3.4", "yes"⟩]).map (fun r => r.name) = ["ab"] := by
  decide

/-- C4 (amended): the mapping step removes the final character of the
name unconditionally; in particular a name ending in `.` has exactly
that one trailing dot stripped, while a name with no trailing dot also
loses its last character. -/
theorem simple_record_strips_last_char (record : RESOURCE) :
    (simple_record record).name = record.name.toList.dropLast.asString ∧
    (record.name.toList.getLast? = some '.' →
      record.name = (simple_record record).name ++ ".") := by
  constructor
  · exact substring_drop_last record.name
  · intro h
    have hne : record.name.toList ≠ [] := by
      intro e
      rw [e] at h
      simp at h
    have hlast : record.name.toList.getLast hne = '.' := by
      have hq := List.getLast?_eq_getLast record.name.toList hne
      rw [hq] at h
      exact Option.some.inj h
    show record.name = substring_to record.name (record.name.length - 1) ++ "."
    rw [substring_drop_last]
    have hjoin : record.name.toList.dropLast.asString ++ "." =
        (record.name.toList.dropLast ++ ['.']).asString := rfl
    rw [hjoin, ← hlast, List.dropLast_append_getLast hne]
    rfl

/-- Witness for C4 (amended) at `a.com.`: the trailing dot is stripped
and re-appending `.` recovers the raw name. -/
theorem simple_record_strips_last_char_witness :
    ("a.com.".toList.getLast? = some '.') ∧
    "a.com." = (simple_record ⟨"a.com.", "A", "1.1.1.1", "yes"⟩).name ++ "." :=
  ⟨by decide, (simple_record_strips_last_char ⟨"a.com.", "A", "1.1.1.1", "yes"⟩).2 (by decide)⟩

/-- C7: the first filter keeps exactly the records whose `is_enable`
field is the literal string `yes`, independent of any other field. -/
theorem enabled_records_mem (dns_records : List RESOURCE) (record : RESOURCE) :
    record ∈ enabled_records dns_records ↔
      record ∈ dns_records ∧ record.is_enable = "yes" := by
  simp [enabled_records, List.mem_filter]

/-- Witness for C7: the enabled record stays, the record flagged `Yes`
(case different from `yes`) is excluded. -/
theorem enabled_records_mem_witness :
    ((⟨"a.com.", "A", "1.1.1.1", "yes"⟩ : RESOURCE) ∈
      enabled_records [⟨"a.com.", "A", "1.1.1.1", "yes"⟩, ⟨"b.com.", "A", "2.2.2.2", "Yes"⟩]) ∧
    ((⟨"b.com.", "A", "2.2.2.2", "Yes"⟩ : RESOURCE) ∉
      enabled_records [⟨"a.com.", "A", "1.1.1.1", "yes"⟩, ⟨"b.com.", "A", "2.2.2.2", "Yes"⟩]) :=
  ⟨(enabled_records_mem _ _).mpr ⟨by decide, by decide⟩,
   fun hmem => absurd ((enabled_records_mem _ _).mp hmem).2 (by decide)⟩

/-- C8: the second filter keeps exactly the records whose `type` is one
of the literal strings `CNAME`, `A`, `AAAA`; comparison is exact, so
lower-case variants are excluded. -/
theorem specified_type_records_mem (l : List RESOURCE) (record : RESOURCE) :
    record ∈ specified_type_records l ↔
      record ∈ l ∧ record.type ∈ (["CNAME", "A", "AAAA"] : List String) := by
  simp [specified_type_records, List.mem_filter]

/-- Witness for C8: an enabled record typed `cname` (lower case) is
excluded while the same record typed `CNAME` is kept. -/
theorem specified_type_records_mem_witness :
    ((⟨"a.com.", "CNAME", "t.com.", "yes"⟩ : RESOURCE) ∈
      specified_type_records
        [⟨"a.com.", "CNAME", "t.com.", "yes"⟩, ⟨"b.com.", "cname", "u.com.", "yes"⟩]) ∧
    ((⟨"b.com.", "cname", "u.com.", "yes"⟩ : RESOURCE) ∉
      specified_type_records
        [⟨"a.com.", "CNAME", "t.com.", "yes"⟩, ⟨"b.com.", "cname", "u.com.", "yes"⟩]) :=
  ⟨(specified_type_records_mem _ _).mpr ⟨by decide, by decide⟩,
   fun hmem => absurd ((specified_type_records_mem _ _).mp hmem).2 (by decide)⟩



/-- One existing sheet row as `process_wedocs` reads it: its opaque
`record_id` and the first text fragment of its name field
(`record.values[FIELD_DNS_NAME][0].text`, line 122). -/
structure ExistingRow where
  record_id : String
  name : String
  deriving DecidableEq, Repr

/-- JavaScript key membership `k in obj` for a plain object built by
`Object.fromEntries entries` (line 129 / 145): the key occurs among the
entries. -/
def has_key (entries : List (String × String)) (k : String) : Bool :=
  entries.any (fun p => p.1 == k)

/-- Indexing `obj[k]` on the same object: the value of the last entry
with key `k` (later entries of `Object.fromEntries` overwrite earlier
ones). -/
def object_get (entries : List (String × String)) (k : String) : Option String :=
  (entries.reverse.find? (fun p => p.1 == k)).map (fun p => p.2)

/-- `Object.keys obj` for the same object: each distinct key once, in
first-insertion order. -/
def object_keys (entries : List (String × String)) : List String :=
  first_occurrences (entries.map (fun p => p.1))

/-- The `statistics` object of line 114. -/
structure Statistics where
  added : Nat
  updated : Nat
  deleted : Nat
  deriving DecidableEq, Repr

/-- Line 116: `REMOVE_IRRELEVANT_RECORDS === 'true' || true` applied to
the environment value after its `'false'` destructuring default. -/
def remove_irrelevant_records_flag (REMOVE_IRRELEVANT_RECORDS : Option String) : Bool :=
  (REMOVE_IRRELEVANT_RECORDS.getD "false" == "true") || true

/-- The observable outcome of one `process_wedocs` run: the three
computed sets, the batch-delete call if one is issued (with the row ids
it submits), and the statistics. -/
structure WedocsRun where
  records_to_insert : List NormalizedRecord
  records_to_update : List NormalizedRecord
  records_to_delete : List String
  delete_call : Option (List String)
  statistics : Statistics
  deriving Repr

/-- Lines 112-168: the sheet reconciler.  `added_response` and
`updated_response` are the record counts of the remote API's responses
to the batch insert and batch update (`res.records.length` and
`res.length`), which are outside this model. -/
def process_wedocs (REMOVE_IRRELEVANT_RECORDS : Option String) (sheet_rows : List ExistingRow)
    (dns_records_data : List NormalizedRecord) (added_response updated_response : Nat) :
    WedocsRun :=
  let rir := remove_irrelevant_records_flag REMOVE_IRRELEVANT_RECORDS
  let record_name_id_mappings := sheet_rows.map (fun record => (record.name, record.record_id))
  let records_to_insert :=
    dns_records_data.filter (fun r => !(has_key record_name_id_mappings r.name))
  let records_to_update :=
    dns_records_data.filter (fun r => has_key record_name_id_mappings r.name)
  if rir then
    let dns_record_names := dns_records_data.map (fun r => r.name)
    let records_to_delete :=
      (object_keys record_name_id_mappings).filter (fun n => !(dns_record_names.contains n))
    { records_to_insert := records_to_insert
      records_to_update := records_to_update
      records_to_delete := records_to_delete
      delete_call :=
        some (records_to_delete.map (fun n => (object_get record_name_id_mappings n).getD ""))
      statistics :=
        { added := added_response, updated := updated_response,
          deleted := records_to_delete.length } }
  else
    { records_to_insert := records_to_insert
      records_to_update := records_to_update
      records_to_delete := []
      delete_call := none
      statistics := { added := added_response, updated := updated_response, deleted := 0 } }

/-- The toggle the code computes is `true` whatever the environment
says. -/
theorem remove_irrelevant_records_flag_always_true (v : Option String) :
    remove_irrelevant_records_flag v = true := by
  simp [remove_irrelevant_records_flag]

/-- C3 evaluated at a failing input: with `REMOVE_IRRELEVANT_RECORDS`
set to `false` (deletions disabled), a sheet row named `c.com` with no
normalized record still triggers a batch-delete call of its row id, and
`statistics.deleted` is 1, not 0. -/
theorem delete_issued_despite_disabled_toggle :
    remove_irrelevant_records_flag (some "false") = true ∧
    (process_wedocs (some "false") [⟨"r1", "c.com"⟩] [] 0 0).delete_call = some ["r1"] ∧
    (process_wedocs (some "false") [⟨"r1", "c.com"⟩] [] 0 0).statistics.deleted = 1 := by
  decide



theorem process_wedocs_records_to_insert (env : Option String) (sheet_rows : List ExistingRow)
    (dns_records_data : List NormalizedRecord) (a u : Nat) :
    (process_wedocs env sheet_rows dns_records_data a u).records_to_insert =
      dns_records_data.filter (fun r =>
        !(has_key (sheet_rows.map (fun record => (record.name, record.record_id))) r.name)) := by
  simp [process_wedocs, remove_irrelevant_records_flag]

theorem process_wedocs_records_to_update (env : Option String) (sheet_rows : List ExistingRow)
    (dns_records_data : List NormalizedRecord) (a u : Nat) :
    (process_wedocs env sheet_rows dns_records_data a u).records_to_update =
      dns_records_data.filter (fun r =>
        has_key (sheet_rows.map (fun record => (record.name, record.record_id))) r.name) := by
  simp [process_wedocs, remove_irrelevant_records_flag]

theorem process_wedocs_records_to_delete (env : Option String) (sheet_rows : List ExistingRow)
    (dns_records_data : List NormalizedRecord) (a u : Nat) :
    (process_wedocs env sheet_rows dns_records_data a u).records_to_delete =
      (object_keys (sheet_rows.map (fun record => (record.name, record.record_id)))).filter
        (fun n => !((dns_records_data.map (fun r => r.name)).contains n)) := by
  simp [process_wedocs, remove_irrelevant_records_flag]

theorem process_wedocs_statistics_deleted (env : Option String) (sheet_rows : List ExistingRow)
    (dns_records_data : List NormalizedRecord) (a u : Nat) :
    (process_wedocs env sheet_rows dns_records_data a u).statistics.deleted =
      (process_wedocs env sheet_rows dns_records_data a u).records_to_delete.length := by
  simp [process_wedocs, remove_irrelevant_records_flag]

theorem first_occurrences_mem (l : List String) (n : String) :
    n ∈ first_occurrences l ↔ n ∈ l := by
  rw [first_occurrences, seen_fold_mem]
  simp

theorem first_occurrences_nodup (l : List String) : (first_occurrences l).Nodup :=
  seen_fold_nodup l [] List.nodup_nil

/-- C5: the insert set and the update set partition the normalized
records: they are disjoint, a record is inserted exactly when its name
is not a key of the existing-row mapping and updated exactly when it is,
and together they cover the whole input. -/
theorem insert_update_partition (env : Option String) (sheet_rows : List ExistingRow)
    (dns_records_data : List NormalizedRecord) (a u : Nat) :
    ((process_wedocs env sheet_rows dns_records_data a u).records_to_insert.Disjoint
      (process_wedocs env sheet_rows dns_records_data a u).records_to_update) ∧
    (∀ r, r ∈ (process_wedocs env sheet_rows dns_records_data a u).records_to_insert ↔
        r ∈ dns_records_data ∧
          has_key (sheet_rows.map (fun record => (record.name, record.record_id))) r.name
            = false) ∧
    (∀ r, r ∈ (process_wedocs env sheet_rows dns_records_data a u).records_to_update ↔
        r ∈ dns_records_data ∧
          has_key (sheet_rows.map (fun record => (record.name, record.record_id))) r.name
            = true) ∧
    (∀ r, r ∈ dns_records_data ↔
        r ∈ (process_wedocs env sheet_rows dns_records_data a u).records_to_insert ∨
          r ∈ (process_wedocs env sheet_rows dns_records_data a u).records_to_update) := by
  rw [process_wedocs_records_to_insert, process_wedocs_records_to_update]
  refine ⟨?_, ?_, ?_, ?_⟩
  · intro r hri hru
    rw [List.mem_filter] at hri hru
    have h1 := hri.2
    have h2 := hru.2
    simp only [Bool.not_eq_true'] at h1
    rw [h1] at h2
    exact Bool.false_ne_true h2
  · intro r
    rw [List.mem_filter]
    simp
  · intro r
    rw [List.mem_filter]
  · intro r
    rw [List.mem_filter, List.mem_filter]
    constructor
    · intro hr
      rcases Bool.eq_false_or_eq_true
          (has_key (sheet_rows.map (fun record => (record.name, record.record_id))) r.name)
          with hk | hk
      · exact Or.inr ⟨hr, hk⟩
      · exact Or.inl ⟨hr, by simp [hk]⟩
    · rintro (h | h) <;> exact h.1

/-- Witness for C5: with one existing row `a.com`, the record named
`d.com` lands in the insert set and the record named `a.com` in the
update set. -/
theorem insert_update_partition_witness :
    ((⟨"d.com", "2.2.2.2"⟩ : NormalizedRecord) ∈
      (process_wedocs none [⟨"id1", "a.com"⟩]
        [⟨"a.com", "1.1.1.1"⟩, ⟨"d.com", "2.2.2.2"⟩] 0 0).records_to_insert) ∧
    ((⟨"a.com", "1.1.1.1"⟩ : NormalizedRecord) ∈
      (process_wedocs none [⟨"id1", "a.com"⟩]
        [⟨"a.com", "1.1.1.1"⟩, ⟨"d.com", "2.2.2.2"⟩] 0 0).records_to_update) :=
  ⟨((insert_update_partition none [⟨"id1", "a.com"⟩]
        [⟨"a.com", "1.1.1.1"⟩, ⟨"d.com", "2.2.2.2"⟩] 0 0).2.1 _).mpr ⟨by decide, by decide⟩,
   ((insert_update_partition none [⟨"id1", "a.com"⟩]
        [⟨"a.com", "1.1.1.1"⟩, ⟨"d.com", "2.2.2.2"⟩] 0 0).2.2.1 _).mpr ⟨by decide, by decide⟩⟩

/-- C6: the delete set holds exactly the existing sheet-row names that
no normalized record carries, each once, and `statistics.deleted` is the
length of that computed set (the count never comes from the API
response). -/
theorem delete_set_is_difference (env : Option String) (sheet_rows : List ExistingRow)
    (dns_records_data : List NormalizedRecord) (a u : Nat) :
    (∀ n, n ∈ (process_wedocs env sheet_rows dns_records_data a u).records_to_delete ↔
        (n ∈ sheet_rows.map (fun row => row.name) ∧
          n ∉ dns_records_data.map (fun r => r.name))) ∧
    (process_wedocs env sheet_rows dns_records_data a u).records_to_delete.Nodup ∧
    (process_wedocs env sheet_rows dns_records_data a u).statistics.deleted =
      (process_wedocs env sheet_rows dns_records_data a u).records_to_delete.length := by
  have hkeys : object_keys (sheet_rows.map (fun record => (record.name, record.record_id))) =
      first_occurrences (sheet_rows.map (fun row => row.name)) := by
    rw [object_keys, List.map_map]
    rfl
  refine ⟨?_, ?_, process_wedocs_statistics_deleted env sheet_rows dns_records_data a u⟩
  · intro n
    rw [process_wedocs_records_to_delete, hkeys, List.mem_filter, first_occurrences_mem]
    simp
  · rw [process_wedocs_records_to_delete, hkeys]
    exact (first_occurrences_nodup _).filter _

/-- Witness for C6: with existing rows `a.com`, `c.com` and the single
normalized record `a.com`, the name `c.com` is in the delete set and the
deleted statistic counts the computed set. -/
theorem delete_set_is_difference_witness :
    ("c.com" ∈ (process_wedocs none [⟨"i1", "a.com"⟩, ⟨"i2", "c.com"⟩]
        [⟨"a.com", "1.1.1.1"⟩] 0 0).records_to_delete) ∧
    (process_wedocs none [⟨"i1", "a.com"⟩, ⟨"i2", "c.com"⟩]
        [⟨"a.com", "1.1.1.1"⟩] 0 0).statistics.deleted =
      (process_wedocs none [⟨"i1", "a.com"⟩, ⟨"i2", "c.com"⟩]
        [⟨"a.com", "1.1.1.1"⟩] 0 0).records_to_delete.length :=
  ⟨((delete_set_is_difference none [⟨"i1", "a.com"⟩, ⟨"i2", "c.com"⟩]
        [⟨"a.com", "1.1.1.1"⟩] 0 0).1 "c.com").mpr ⟨by decide, by decide⟩,
   (delete_set_is_difference none [⟨"i1", "a.com"⟩, ⟨"i2", "c.com"⟩]
        [⟨"a.com", "1.1.1.1"⟩] 0 0).2.2⟩



/-- The environment variables line 9 destructures.  `APPWRITE_API_KEY`
is read but deliberately absent from the line-11 check (it is only
needed in development mode). -/
structure Env where
  APPWRITE_ENDPOINT : Option String
  APPWRITE_FUNCTION_PROJECT_ID : Option String
  APPWRITE_API_KEY : Option String
  APPWRITE_DATABASE_ID : Option String
  APPWRITE_COLLECTION_ID : Option String
  ZDNS_API_HOST : Option String
  ZDNS_API_USERNAME : Option String
  ZDNS_API_PASSWORD : Option String
  CORP_ID : Option String
  SECRET : Option String
  DOC_ID : Option String
  SHEET_ID : Option String

/-- JavaScript `!v` for an environment value `v : string | undefined`:
true exactly for `undefined` and the empty string. -/
def js_falsy (v : Option String) : Bool :=
  match v with
  | none => true
  | some s => s == ""

/-- The line-11 condition over the eleven mandatory parameters. -/
def appwrite_envs_not_configured (e : Env) : Bool :=
  js_falsy e.APPWRITE_ENDPOINT || js_falsy e.APPWRITE_FUNCTION_PROJECT_ID ||
    js_falsy e.APPWRITE_DATABASE_ID || js_falsy e.APPWRITE_COLLECTION_ID ||
    js_falsy e.ZDNS_API_HOST || js_falsy e.ZDNS_API_USERNAME || js_falsy e.ZDNS_API_PASSWORD ||
    js_falsy e.CORP_ID || js_falsy e.SECRET || js_falsy e.DOC_ID || js_falsy e.SHEET_ID

/-- The network calls a full run issues, in order (`shared_rrs_get`,
then the four SmartSheet calls; the delete is always reached because of
the line-116 override). -/
inductive NetCall where
  | zdns_shared_rrs_get
  | sheet_records
  | sheet_add
  | sheet_update
  | sheet_del
  deriving DecidableEq, Repr

/-- Module load plus run: lines 11-14 run at import time, before any
network call; if the check fails the process exits with status `-1` and
the entrypoint never runs, otherwise a run issues the five calls. -/
def module_load (e : Env) : Option Int × List NetCall :=
  if appwrite_envs_not_configured e then
    (some (-1), [])
  else
    (none, [NetCall.zdns_shared_rrs_get, NetCall.sheet_records, NetCall.sheet_add,
            NetCall.sheet_update, NetCall.sheet_del])

/-- C9: if any of the eleven mandatory parameters is absent, the process
exits with the non-zero status `-1` and no network call is made. -/
theorem missing_env_exits_before_network (e : Env)
    (h : e.APPWRITE_ENDPOINT = none ∨ e.APPWRITE_FUNCTION_PROJECT_ID = none ∨
      e.APPWRITE_DATABASE_ID = none ∨ e.APPWRITE_COLLECTION_ID = none ∨
      e.ZDNS_API_HOST = none ∨ e.ZDNS_API_USERNAME = none ∨ e.ZDNS_API_PASSWORD = none ∨
      e.CORP_ID = none ∨ e.SECRET = none ∨ e.DOC_ID = none ∨ e.SHEET_ID = none) :
    module_load e = (some (-1), []) ∧ (-1 : Int) ≠ 0 := by
  refine ⟨?_, by decide⟩
  have hcond : appwrite_envs_not_configured e = true := by
    rcases h with h | h | h | h | h | h | h | h | h | h | h <;>
      simp [appwrite_envs_not_configured, js_falsy, h]
  rw [module_load, if_pos hcond]

/-- Witness for C9: an environment lacking only `SHEET_ID` exits with
status `-1` and an empty call list. -/
theorem missing_env_exits_before_network_witness :
    module_load
      { APPWRITE_ENDPOINT := some "e", APPWRITE_FUNCTION_PROJECT_ID := some "p",
        APPWRITE_API_KEY := some "k", APPWRITE_DATABASE_ID := some "d",
        APPWRITE_COLLECTION_ID := some "c", ZDNS_API_HOST := some "h",
        ZDNS_API_USERNAME := some "u", ZDNS_API_PASSWORD := some "w",
        CORP_ID := some "i", SECRET := some "s", DOC_ID := some "o",
        SHEET_ID := none } = (some (-1), []) ∧ (-1 : Int) ≠ 0 :=
  missing_env_exits_before_network
    { APPWRITE_ENDPOINT := some "e", APPWRITE_FUNCTION_PROJECT_ID := some "p",
      APPWRITE_API_KEY := some "k", APPWRITE_DATABASE_ID := some "d",
      APPWRITE_COLLECTION_ID := some "c", ZDNS_API_HOST := some "h",
      ZDNS_API_USERNAME := some "u", ZDNS_API_PASSWORD := some "w",
      CORP_ID := some "i", SECRET := some "s", DOC_ID := some "o",
      SHEET_ID := none }
    (by simp)



/-- A JavaScript object relevant to the normalizer: a raw DNS record or
one of the `{ name, rdata }` objects the map step creates. -/
inductive Obj where
  | raw (r : RESOURCE)
  | simple (r : NormalizedRecord)
  deriving DecidableEq, Repr

/-- An explicit heap: addresses to objects. -/
def Heap : Type := Nat → Option Obj

/-- Read an address expecting a raw record. -/
def read_raw (h : Heap) (a : Nat) : Option RESOURCE :=
  match h a with
  | some (Obj.raw r) => some r
  | _ => none

/-- Read an address expecting a `{ name, rdata }` object. -/
def read_simple (h : Heap) (a : Nat) : Option NormalizedRecord :=
  match h a with
  | some (Obj.simple r) => some r
  | _ => none

/-- Store a `{ name, rdata }` object at an address. -/
def write_simple (h : Heap) (a : Nat) (r : NormalizedRecord) : Heap :=
  fun b => if b = a then some (Obj.simple r) else h b

/-- The line-85 predicate read through the heap. -/
def enabled_addr (h : Heap) (a : Nat) : Bool :=
  match read_raw h a with
  | some record => record.is_enable == "yes"
  | none => false

/-- The line-88 predicate read through the heap. -/
def specified_type_addr (h : Heap) (a : Nat) : Bool :=
  match read_raw h a with
  | some record => (["CNAME", "A", "AAAA"] : List String).contains record.type
  | none => false

/-- The map step of line 91 over the heap: each surviving record yields
a freshly allocated `{ name, rdata }` object; returns the final heap,
the next free address and the addresses of the new objects. -/
def map_simple_records (h : Heap) (next : Nat) (addrs : List Nat) :
    Heap × Nat × List Nat :=
  match addrs with
  | [] => (h, next, [])
  | a :: rest =>
    match read_raw h a with
    | some record =>
      let res := map_simple_records (write_simple h next (simple_record record)) (next + 1) rest
      (res.1, res.2.1, next :: res.2.2)
    | none => map_simple_records h next rest

/-- Line 95 over the heap: the first address in `records_data` whose
object carries the given name. -/
def find_name_addr (h : Heap) (records_data : List Nat) (n : String) : Option Nat :=
  records_data.find? (fun b =>
    match read_simple h b with
    | some r => r.name == n
    | none => false)

/-- The merge loop of lines 94-102 over the heap: a found entry is
mutated in place (line 98); otherwise the address is appended to
`records_data` (line 100). -/
def merge_loop (h : Heap) (records_data : List Nat) (todo : List Nat) : Heap × List Nat :=
  match todo with
  | [] => (h, records_data)
  | a :: rest =>
    match read_simple h a with
    | some record =>
      match find_name_addr h records_data record.name with
      | some b =>
        match read_simple h b with
        | some existing_record =>
          merge_loop
            (write_simple h b
              { existing_record with rdata := existing_record.rdata ++ "," ++ record.rdata })
            records_data rest
        | none => merge_loop h records_data rest
      | none => merge_loop h (records_data ++ [a]) rest
    | none => merge_loop h records_data rest

/-- Lines 81-105 over the heap: `dns_records` is the list of addresses
of the input array's record objects; the result is the final heap and
the addresses of the output list. -/
def process_dns_records_heap (h : Heap) (next : Nat) (dns_records : List Nat) :
    Heap × List Nat :=
  let enabled := dns_records.filter (enabled_addr h)
  let specified := enabled.filter (specified_type_addr h)
  let allocated := map_simple_records h next specified
  merge_loop allocated.1 [] allocated.2.2

theorem map_simple_records_frame (addrs : List Nat) (h : Heap) (n : Nat) :
    (∀ a, a < n → (map_simple_records h n addrs).1 a = h a) ∧
    n ≤ (map_simple_records h n addrs).2.1 ∧
    (∀ b, b ∈ (map_simple_records h n addrs).2.2 →
      n ≤ b ∧ b < (map_simple_records h n addrs).2.1) := by
  induction addrs generalizing h n with
  | nil =>
    refine ⟨fun a _ => rfl, Nat.le_refl n, ?_⟩
    intro b hb
    exact absurd hb (List.not_mem_nil b)
  | cons a rest ih =>
    cases hr : read_raw h a with
    | some record =>
      have hrec := ih (write_simple h n (simple_record record)) (n + 1)
      constructor
      · intro x hx
        have hstep : (map_simple_records h n (a :: rest)).1 =
            (map_simple_records (write_simple h n (simple_record record)) (n + 1) rest).1 := by
          simp [map_simple_records, hr]
        rw [hstep, hrec.1 x (Nat.lt_succ_of_lt hx)]
        unfold write_simple
        rw [if_neg (Nat.ne_of_lt hx)]
      constructor
      · have hstep : (map_simple_records h n (a :: rest)).2.1 =
            (map_simple_records (write_simple h n (simple_record record)) (n + 1) rest).2.1 := by
          simp [map_simple_records, hr]
        rw [hstep]
        exact Nat.le_of_succ_le hrec.2.1
      · intro b hb
        have hstep : (map_simple_records h n (a :: rest)).2.2 =
            n :: (map_simple_records (write_simple h n (simple_record record)) (n + 1) rest).2.2 := by
          simp [map_simple_records, hr]
        have hstep1 : (map_simple_records h n (a :: rest)).2.1 =
            (map_simple_records (write_simple h n (simple_record record)) (n + 1) rest).2.1 := by
          simp [map_simple_records, hr]
        rw [hstep] at hb
        rw [hstep1]
        rcases List.mem_cons.mp hb with hbn | hbm
        · subst hbn
          exact ⟨Nat.le_refl b, Nat.lt_of_lt_of_le (Nat.lt_succ_self b) hrec.2.1⟩
        · have := hrec.2.2 b hbm
          exact ⟨Nat.le_of_succ_le this.1, this.2⟩
    | none =>
      have hstep : map_simple_records h n (a :: rest) = map_simple_records h n rest := by
        simp [map_simple_records, hr]
      rw [hstep]
      exact ih h n

theorem merge_loop_frame (todo : List Nat) (h : Heap) (records_data : List Nat) (a : Nat)
    (ha1 : a ∉ records_data) (ha2 : a ∉ todo) :
    (merge_loop h records_data todo).1 a = h a := by
  induction todo generalizing h records_data with
  | nil => rfl
  | cons t rest ih =>
    have hat : a ≠ t := fun e => ha2 (e ▸ List.mem_cons_self t rest)
    have harest : a ∉ rest := fun hm => ha2 (List.mem_cons_of_mem t hm)
    cases hread : read_simple h t with
    | some record =>
      cases hfind : find_name_addr h records_data record.name with
      | some b =>
        cases hreadb : read_simple h b with
        | some existing_record =>
          have hbmem : b ∈ records_data := List.mem_of_find?_eq_some hfind
          have hab : a ≠ b := fun e => ha1 (e ▸ hbmem)
          have hstep : merge_loop h records_data (t :: rest) =
              merge_loop
                (write_simple h b
                  { existing_record with
                      rdata := existing_record.rdata ++ "," ++ record.rdata })
                records_data rest := by
            simp [merge_loop, hread, hfind, hreadb]
          rw [hstep, ih _ records_data ha1 harest]
          unfold write_simple
          rw [if_neg hab]
        | none =>
          have hstep : merge_loop h records_data (t :: rest) =
              merge_loop h records_data rest := by
            simp [merge_loop, hread, hfind, hreadb]
          rw [hstep]
          exact ih h records_data ha1 harest
      | none =>
        have hstep : merge_loop h records_data (t :: rest) =
            merge_loop h (records_data ++ [t]) rest := by
          simp [merge_loop, hread, hfind]
        have ha1' : a ∉ records_data ++ [t] := by
          intro hm
          rcases List.mem_append.mp hm with hm | hm
          · exact ha1 hm
          · exact hat (List.mem_singleton.mp hm)
        rw [hstep]
        exact ih h (records_data ++ [t]) ha1' harest
    | none =>
      have hstep : merge_loop h records_data (t :: rest) =
          merge_loop h records_data rest := by
        simp [merge_loop, hread]
      rw [hstep]
      exact ih h records_data ha1 harest

/-- C10: the normalizer never writes to a pre-existing address: every
address below the allocation frontier `next` — in particular the address
of every input record object, with all its fields — holds the same
object after the run; only the freshly allocated output entries are ever
mutated. -/
theorem process_dns_records_heap_frame (h : Heap) (next : Nat) (dns_records : List Nat)
    (hvalid : ∀ a, a ∈ dns_records → a < next) :
    (∀ a, a < next → (process_dns_records_heap h next dns_records).1 a = h a) ∧
    (∀ a, a ∈ dns_records →
      read_raw (process_dns_records_heap h next dns_records).1 a = read_raw h a) := by
  have hmap := map_simple_records_frame
    ((dns_records.filter (enabled_addr h)).filter (specified_type_addr h)) h next
  have hmain : ∀ a, a < next → (process_dns_records_heap h next dns_records).1 a = h a := by
    intro a ha
    have hnotfresh : a ∉ (map_simple_records h next
        ((dns_records.filter (enabled_addr h)).filter (specified_type_addr h))).2.2 := by
      intro hm
      exact absurd ha (Nat.not_lt_of_le (hmap.2.2 a hm).1)
    have hloop := merge_loop_frame
      (map_simple_records h next
        ((dns_records.filter (enabled_addr h)).filter (specified_type_addr h))).2.2
      (map_simple_records h next
        ((dns_records.filter (enabled_addr h)).filter (specified_type_addr h))).1
      [] a (List.not_mem_nil a) hnotfresh
    calc (process_dns_records_heap h next dns_records).1 a
        = (map_simple_records h next
            ((dns_records.filter (enabled_addr h)).filter (specified_type_addr h))).1 a := hloop
      _ = h a := hmap.1 a ha
  refine ⟨hmain, ?_⟩
  intro a ha
  rw [read_raw, hmain a (hvalid a ha)]
  rfl

/-- A concrete two-record heap used to exercise the frame theorem. -/
def example_heap : Heap :=
  fun b =>
    if b = 0 then some (Obj.raw ⟨"a.com.", "A", "1.1.1.1", "yes"⟩)
    else if b = 1 then some (Obj.raw ⟨"a.com.", "A", "2.2.2.2", "yes"⟩)
    else none

/-- Witness for C10: a two-record heap is untouched at both input
addresses after a run that filters, allocates and merges. -/
theorem process_dns_records_heap_frame_witness :
    example_heap 0 = (process_dns_records_heap example_heap 2 [0, 1]).1 0 ∧
    example_heap 1 = (process_dns_records_heap example_heap 2 [0, 1]).1 1 :=
  ⟨((process_dns_records_heap_frame example_heap 2 [0, 1] (by decide)).1 0 (by decide)).symm,
   ((process_dns_records_heap_frame example_heap 2 [0, 1] (by decide)).1 1 (by decide)).symm⟩


end SyncDnsWecom
